import Mathlib

/-!
Verification development for the dependency-analysis tool
(`utils/dependency_analyzer.py`, `build_project_structure.py`,
`make_file_summaries.py`).

Paths are modelled as lists of components relative to the project root
(POSIX separators).  The file-system layout visible to the resolver is
modelled extensionally: the set of existing regular files and the set of
existing directories, each as a list of component paths.
-/

/-- The project file-system layout seen by `DependencyAnalyzer`:
`files` are the existing non-directory entries, `dirs` the existing
directories, both as component paths relative to the project root. -/
structure FS where
  files : List (List String)
  dirs : List (List String)

/-- `Path.exists()` on a path under the project root. -/
def pathExists (fs : FS) (p : List String) : Bool :=
  decide (p ∈ fs.files) || decide (p ∈ fs.dirs)

/-- `Path.is_dir()` on a path under the project root. -/
def isDir (fs : FS) (p : List String) : Bool :=
  decide (p ∈ fs.dirs)

/-- The directory-walking loop of `_find_module_file` (lines 189-192):
`for p in parts[:-1]: base = base / p; if not base.exists() or not
base.is_dir(): return None`.  Returns the reached base directory. -/
def walkDirs (fs : FS) (base : List String) : List String → Option (List String)
  | [] => some base
  | p :: rest =>
    let b := base ++ [p]
    if pathExists fs b && isDir fs b then walkDirs fs b rest else none

/-- The file-or-package test of `_find_module_file`: first try
`base/(last + ".py")`, then the package directory `base/last` with its
`__init__.py` initializer (the file wins when both exist). -/
def findInBase (fs : FS) (base : List String) (last : String) : Option (List String) :=
  let fileCand := base ++ [last ++ ".py"]
  if pathExists fs fileCand then some fileCand
  else
    let dirCand := base ++ [last]
    let initCand := dirCand ++ ["__init__.py"]
    if pathExists fs dirCand && pathExists fs initCand then some initCand
    else none

/-- `DependencyAnalyzer._find_module_file`: resolve a list of dotted-path
components to a project file.  The single-component branch of the source is
the `parts.dropLast = []` case of the same walk-then-test (the walk over an
empty list of directories is the identity on the project root). -/
def find_module_file (fs : FS) (parts : List String) : Option (List String) :=
  match parts.getLast? with
  | none => none
  | some last =>
    match walkDirs fs [] parts.dropLast with
    | none => none
    | some base => findInBase fs base last

/-- The countdown loop of `_resolve_import`:
`for i in range(len(parts), 0, -1)`, trying the length-`i` leading slice of
`parts` and keeping the first (largest) `i` that resolves.  Returns the
tuple `(prefix[-1], candidate_file, sub_modules)` of the source. -/
def resolveAux (fs : FS) (parts : List String) :
    Nat → Option (String × List String × List String)
  | 0 => none
  | i + 1 =>
    match find_module_file fs (parts.take (i + 1)) with
    | some f => some ((parts.take (i + 1)).getLastD "", f, parts.drop (i + 1))
    | none => resolveAux fs parts i

/-- Helper for splitting a dotted name: the loop of `str.split('.')`. -/
def splitDotsAux : List Char → List Char → List String
  | [], acc => [String.mk acc.reverse]
  | ch :: rest, acc =>
    if ch = '.' then String.mk acc.reverse :: splitDotsAux rest []
    else splitDotsAux rest (ch :: acc)

/-- `import_name.split('.')` of the source (on the empty string it yields
`[""]`, exactly as in Python). -/
def splitDots (s : String) : List String := splitDotsAux s.data []

/-- `DependencyAnalyzer._resolve_import` on a raw dotted import string. -/
def resolve_import (fs : FS) (import_name : String) :
    Option (String × List String × List String) :=
  let parts := splitDots import_name
  resolveAux fs parts parts.length

/-- `DependencyAnalyzer._classify_imports`: split the raw import list into
resolved internal tuples and verbatim external names, keeping order. -/
def classify_imports (fs : FS) (imports : List String) :
    List (String × List String × List String) × List String :=
  imports.foldl
    (fun acc imp =>
      match resolve_import fs imp with
      | some r => (acc.1 ++ [r], acc.2)
      | none => (acc.1, acc.2 ++ [imp]))
    ([], [])

/-- Layout for the worked example of the spec: the directory `a` exists and
contains the file `a/b.py`; nothing else exists. -/
def exampleFS : FS :=
  ⟨[["a", "b.py"]], [["a"]]⟩

/-- One entry of a `modules` list inside the internal-dependency
structure: `{'name': stem, 'path': './…', 'sub_modules': [...]}`. -/
structure ModEntry where
  name : String
  path : String
  sub_modules : List String
deriving DecidableEq

/-- The nested `inner_project_dependencies` dictionary built by
`_build_inner_deps_structure`: an optional `'path'` entry (never present on
the top-level node), an optional `'modules'` list (absent until a module is
added under the node), and named sub-directory nodes in insertion order. -/
inductive DNode where
  | mk (path : Option String) (modules : Option (List ModEntry))
      (children : List (String × DNode))

def DNode.modsOf : DNode → Option (List ModEntry)
  | .mk _ m _ => m

def DNode.childrenOf : DNode → List (String × DNode)
  | .mk _ _ c => c

/-- The empty dictionary `{}`. -/
def emptyDNode : DNode := .mk none none []

/-- `'./' + str(rel)` for a project-relative path, POSIX separators. -/
def joinRel (parts : List String) : String :=
  "./" ++ String.intercalate "/" parts

/-- `Path.stem`: final component without its last dot-suffix (the inputs
reaching it here always end in a real `.py` suffix). -/
def stemOf (s : String) : String :=
  let ps := splitDots s
  if ps.length ≤ 1 then s else String.intercalate "." ps.dropLast

/-- The `'path'` value stored when a directory node is created:
`'./' + str(Path(*rel_path.parts[:rel_path.parts.index(p)+1]))`.  Note the
source uses the first index of the component name within the relative
path. -/
def dirPathAt (relParts : List String) (p : String) : String :=
  joinRel (relParts.take (relParts.indexOf p + 1))

def lookupChild : List (String × DNode) → String → Option DNode
  | [], _ => none
  | (k, n) :: rest, d => if k = d then some n else lookupChild rest d

/-- Dictionary assignment `current[p] = node`: replace in place when the
key exists, append at the end otherwise. -/
def setChild : List (String × DNode) → String → DNode → List (String × DNode)
  | [], d, n => [(d, n)]
  | (k, c) :: rest, d, n =>
    if k = d then (k, n) :: rest else (k, c) :: setChild rest d n

/-- The directory-navigation loop of `_build_inner_deps_structure`: walk the
leading directory components of the module's relative path, creating
`{'path': ...}` nodes on demand, then append the module entry to the final
node's `modules` list. -/
def insertDep (relParts : List String) (entry : ModEntry) : DNode → List String → DNode
  | .mk p mods children, [] =>
    .mk p (some (mods.getD [] ++ [entry])) children
  | .mk p mods children, d :: rest =>
    let child :=
      match lookupChild children d with
      | some c => c
      | none => .mk (some (dirPathAt relParts d)) none []
    .mk p mods (setChild children d (insertDep relParts entry child rest))

/-- `DependencyAnalyzer._build_inner_deps_structure`.  The resolver of this
embedding already yields project-relative component paths, so the source's
`path.relative_to(self.project_path)` is the identity here.  The stored
entry name is `rel_path.stem`, not the resolver's module name. -/
def build_inner_deps_structure
    (internal : List (String × List String × List String)) : DNode :=
  internal.foldl
    (fun acc t =>
      let rel := t.2.1
      insertDep rel ⟨stemOf (rel.getLastD ""), joinRel rel, t.2.2⟩ acc rel.dropLast)
    emptyDNode

mutual

/-- `_recurse_inner_dependencies`, linearized to the list of module paths it
attempts to recurse into, in walk order.  A sub-dictionary that has a
`'modules'` list contributes only that list — its own nested
sub-directories are skipped by the source — while one without a `'modules'`
list is walked recursively; the `'path'` string entries are ignored. -/
def collectDeps : DNode → List String
  | .mk _ mods children =>
    (match mods with
     | some l => l.map ModEntry.path
     | none => []) ++ collectDepsChildren children

def collectDepsChildren : List (String × DNode) → List String
  | [] => []
  | (_, c) :: rest =>
    (match c.modsOf with
     | some l => l.map ModEntry.path
     | none => collectDeps c) ++ collectDepsChildren rest

end

mutual

/-- `build_project_structure.extract_internal_module_paths`: collect every
`modules[].path`, descending into every nested dictionary and list value.
Each recursive return of the source passes through `list(set(...))`,
modelled by `List.dedup`; the set iteration order of the source is
unspecified, and only membership and uniqueness of the result are relied
upon downstream.  Iterating the items of a node with a `'modules'` list
also re-enters that list, re-collecting each entry's path (the duplicates
are collapsed by the dedup). -/
def extract_internal_module_paths : DNode → List String
  | .mk _ mods children =>
    ((match mods with
      | some l => l.map ModEntry.path ++ (l.map ModEntry.path).dedup
      | none => []) ++ extractChildren children).dedup

def extractChildren : List (String × DNode) → List String
  | [] => []
  | (_, c) :: rest => extract_internal_module_paths c ++ extractChildren rest

end

mutual

/-- Modelled from the spec: the flat list of every nested `modules[].path`
of an internal-dependency tree, the reference point for the aggregator
claim. -/
def specAllPaths : DNode → List String
  | .mk _ mods children =>
    (match mods with
     | some l => l.map ModEntry.path
     | none => []) ++ specAllPathsChildren children

def specAllPathsChildren : List (String × DNode) → List String
  | [] => []
  | (_, c) :: rest => specAllPaths c ++ specAllPathsChildren rest

end

/-- A `FunctionInfo` record of `DependencyVisitor.visit_FunctionDef`:
`variables` is flattened into its `used`/`assigned` lists. -/
structure FnInfo where
  name : String
  type : String
  start_line : Int
  end_line : Int
  docstring : Option String
  calls : List String
  used : List String
  assigned : List String
  decorators : List String
  returns : Option String
  parameters : List (String × Option String)
deriving DecidableEq

/-- A class record of `DependencyVisitor.visit_ClassDef`. -/
structure ClsInfo where
  name : String
  type : String
  start_line : Int
  end_line : Int
  docstring : Option String
  methods : List (String × FnInfo)
  bases : List String
deriving DecidableEq

/-- A persisted `SourceFileRecord`: either the degraded parse-failure record
`{"path": str(file_path), "error": str(e)}` of `_analyze_single_file`, or
its full record. -/
inductive Rec where
  | err (path : String) (msg : String)
  | ok (path : String) (inner : DNode) (external : List String)
      (classes : List (String × ClsInfo)) (functions : List (String × FnInfo))

/-- `data.get("path")`. -/
def recPath : Rec → String
  | .err p _ => p
  | .ok p _ _ _ _ => p

/-- `file_info.get("inner_project_dependencies", {})`: an error record has
no such key, so the walk receives the empty dictionary. -/
def recInnerDeps : Rec → DNode
  | .err _ _ => emptyDNode
  | .ok _ i _ _ _ => i

/-- `data.get("external_dependencies", [])`. -/
def recExternal : Rec → List String
  | .err _ _ => []
  | .ok _ _ e _ _ => e

/-- `data.get("classes", {})`. -/
def recClasses : Rec → List (String × ClsInfo)
  | .err _ _ => []
  | .ok _ _ _ c _ => c

/-- `data.get("functions", {})`. -/
def recFunctions : Rec → List (String × FnInfo)
  | .err _ _ => []
  | .ok _ _ _ _ f => f

/-- The inputs of one `DependencyAnalyzer` traversal: the set of module
paths that exist on disk (as the path strings the walk resolves), and the
persisted analysis result `_analyze_single_file` produces for each file. -/
structure Proj where
  files : List String
  analyze : String → Rec

/-- The analyzer's mutable state: the visited set and, in emission order,
the records written by `_write_file_info_to_json`. -/
structure AnalyzerSt where
  visited : List String
  records : List (String × Rec)

/-- The guard `self.max_depth is not None and depth > self.max_depth`. -/
def depthCheck (maxD : Option Nat) (depth : Nat) : Bool :=
  match maxD with
  | some d => decide (d < depth)
  | none => false

mutual

/-- `DependencyAnalyzer._recursive_analyze_file`.  The source recursion has
no structural bound, so the embedding carries explicit fuel, spent one unit
per nested call; `none` means the fuel ran out.  Depth guard first, then
the visited check; an unvisited file is added to the visited set and its
record emitted before the walk of its inner dependencies recurses (the walk
is `collectDeps`, with the `mod_real_path.exists()` test as a membership
filter against the project files). -/
def recAnalyzeFile (proj : Proj) (maxD : Option Nat) :
    Nat → String → Nat → AnalyzerSt → Option AnalyzerSt
  | 0, _, _, _ => none
  | fuel + 1, file, depth, st =>
    if depthCheck maxD depth then some st
    else if file ∈ st.visited then some st
    else
      let r := proj.analyze file
      let st1 : AnalyzerSt := ⟨file :: st.visited, st.records ++ [(file, r)]⟩
      recAnalyzeDeps proj maxD fuel
        ((collectDeps (recInnerDeps r)).filter (fun p => p ∈ proj.files))
        (depth + 1) st1

/-- The per-module recursion of `_recurse_inner_dependencies`, threading
the analyzer state left to right through the collected module paths. -/
def recAnalyzeDeps (proj : Proj) (maxD : Option Nat) :
    Nat → List String → Nat → AnalyzerSt → Option AnalyzerSt
  | _, [], _, st => some st
  | fuel, f :: rest, depth, st =>
    match recAnalyzeFile proj maxD fuel f depth st with
    | none => none
    | some st2 => recAnalyzeDeps proj maxD fuel rest depth st2

end

/-- `DependencyAnalyzer.analyze_from_entry`: a missing entry file aborts
before any analysis; otherwise the recursion starts at depth 0 with fuel
one more than the number of project files (shown sufficient below). -/
def analyze_from_entry (proj : Proj) (maxD : Option Nat) (entry : String) :
    Option AnalyzerSt :=
  if entry ∈ proj.files then
    recAnalyzeFile proj maxD (proj.files.length + 1) entry 0 ⟨[], []⟩
  else some ⟨[], []⟩

/-- The number of project files not yet visited, the termination measure of
the traversal. -/
def unvis (proj : Proj) (st : AnalyzerSt) : Nat :=
  (proj.files.filter (fun x => !decide (x ∈ st.visited))).length

/-- The state invariant of the traversal: the visited set never holds
duplicates and is exactly the reversed list of emitted record paths. -/
def AnalyzerInv (st : AnalyzerSt) : Prop :=
  st.visited.Nodup ∧ st.visited = (st.records.map Prod.fst).reverse

/-- The expression context of an `ast.Name` node. -/
inductive Ctx where
  | load
  | store
  | del

/-- The parsed syntax tree consumed by `DependencyVisitor` (the parser is
an external collaborator).  Child lists mirror the `_fields` order that
`ast.NodeVisitor.generic_visit` walks; `plain` stands for every node kind
without a dedicated `visit_…` handler, whose children are still walked. -/
inductive Node where
  | classDef (cname : String) (startL endL : Int) (docstring : Option String)
      (bases : List Node) (decorators : List Node) (body : List Node)
  | funcDef (fname : String) (startL endL : Int) (docstring : Option String)
      (decorators : List Node) (params : List (String × Option Node))
      (returns : Option Node) (body : List Node)
  | call (func : Node) (args : List Node)
  | nameN (id : String) (ctx : Ctx)
  | attrN (value : Node) (attrName : String)
  | subscriptN (value : Node) (slice : Node)
  | importN (names : List String)
  | importFrom (module : String) (names : List String)
  | plain (children : List Node)

/-- `DependencyVisitor._get_full_name`: best-effort dotted textual name of
an expression; unrecognized shapes give the empty string. -/
def getFullName : Node → String
  | .nameN id _ => id
  | .attrN v a =>
    let vn := getFullName v
    if vn = "" then a else vn ++ "." ++ a
  | .call f _ => getFullName f
  | .subscriptN v _ => getFullName v
  | _ => ""

/-- `DependencyVisitor._get_name` (used for base classes). -/
def getName : Node → String
  | .nameN id _ => id
  | .attrN v a => getFullName (.attrN v a)
  | _ => ""

mutual

/-- Stands in for `ast.dump(node)` in the annotation fallback: a canonical
textual rendering of the node.  No claim relies on the exact text. -/
def astDump : Node → String
  | .classDef n _ _ _ bases decos body =>
    "ClassDef(" ++ n ++ "," ++ astDumpList bases ++ "," ++ astDumpList decos
      ++ "," ++ astDumpList body ++ ")"
  | .funcDef n _ _ _ decos params ret body =>
    "FunctionDef(" ++ n ++ "," ++ astDumpList decos ++ "," ++ astDumpParams params
      ++ "," ++ astDumpOpt ret ++ "," ++ astDumpList body ++ ")"
  | .call f args => "Call(" ++ astDump f ++ "," ++ astDumpList args ++ ")"
  | .nameN id _ => "Name(" ++ id ++ ")"
  | .attrN v a => "Attribute(" ++ astDump v ++ "," ++ a ++ ")"
  | .subscriptN v s => "Subscript(" ++ astDump v ++ "," ++ astDump s ++ ")"
  | .importN ns => "Import(" ++ String.intercalate "," ns ++ ")"
  | .importFrom m ns => "ImportFrom(" ++ m ++ "," ++ String.intercalate "," ns ++ ")"
  | .plain ch => "Node(" ++ astDumpList ch ++ ")"

def astDumpList : List Node → String
  | [] => ""
  | n :: rest => astDump n ++ ";" ++ astDumpList rest

def astDumpOpt : Option Node → String
  | none => "None"
  | some n => astDump n

def astDumpParams : List (String × Option Node) → String
  | [] => ""
  | (k, a) :: rest => k ++ ":" ++ astDumpOpt a ++ ";" ++ astDumpParams rest

end

/-- `DependencyVisitor._get_annotation`. -/
def getAnnot : Option Node → Option String
  | none => none
  | some (.nameN id _) => some id
  | some (.subscriptN v s) => some (getFullName (.subscriptN v s))
  | some n => some (astDump n)

/-- `DependencyVisitor._get_parameters`. -/
def getParameters (params : List (String × Option Node)) :
    List (String × Option String) :=
  params.map (fun p => (p.1, getAnnot p.2))

/-- The visitor's mutable state.  `currentFn` models the
`self.current_function` reference as the address of the live function
record: the class name under which it was registered (if any) and its
name. -/
structure VState where
  classes : List (String × ClsInfo)
  functions : List (String × FnInfo)
  imports : List String
  currentCls : Option String
  currentFn : Option (Option String × String)

/-- Dictionary assignment `d[k] = v`: overwrite in place, else append. -/
def updateAssoc {α : Type} : List (String × α) → String → α → List (String × α)
  | [], k, v => [(k, v)]
  | (k', v') :: rest, k, v =>
    if k' = k then (k, v) :: rest else (k', v') :: updateAssoc rest k v

/-- In-place mutation of the value held under an existing key. -/
def modifyAssoc {α : Type} : List (String × α) → String → (α → α) → List (String × α)
  | [], _, _ => []
  | (k', v') :: rest, k, f =>
    if k' = k then (k', f v') :: rest else (k', v') :: modifyAssoc rest k f

/-- A mutation through the `self.current_function` reference (appending a
call, or recording a used/assigned variable); a no-op when no function is
current. -/
def modifyCurrentFn (st : VState) (f : FnInfo → FnInfo) : VState :=
  match st.currentFn with
  | none => st
  | some (none, fname) => { st with functions := modifyAssoc st.functions fname f }
  | some (some cname, fname) =>
    { st with
      classes := modifyAssoc st.classes cname
        (fun ci => { ci with methods := modifyAssoc ci.methods fname f }) }

/-- The registration step of `visit_FunctionDef`: under a current class the
record lands in that class's `methods` mapping, otherwise in the
module-level `functions` mapping.  (Python tests `if self.current_class:`
by string truthiness; parser-produced class names are never empty, so the
test is the presence of a current class.) -/
def registerFn (st : VState) (fname : String) (fi : FnInfo) : VState :=
  match st.currentCls with
  | some c =>
    { st with
      classes := modifyAssoc st.classes c
        (fun ci => { ci with methods := updateAssoc ci.methods fname fi }) }
  | none => { st with functions := updateAssoc st.functions fname fi }

mutual

/-- `DependencyVisitor.visit`: the dispatch over node kinds.  Each handler
mirrors the source: class and function handlers insert their record, set
the corresponding `current…` context, walk the children, and reset that
context to `None` (not to the previous value) on exit. -/
def visit (st : VState) : Node → VState
  | .classDef cname s e doc bases decos body =>
    let ci : ClsInfo := ⟨cname, "class", s, e, doc, [], bases.map getName⟩
    let st1 := { st with classes := updateAssoc st.classes cname ci,
                         currentCls := some cname }
    let st2 := visitList st1 bases
    let st3 := visitList st2 body
    let st4 := visitList st3 decos
    { st4 with currentCls := none }
  | .funcDef fname s e doc decos params ret body =>
    let fi : FnInfo := ⟨fname,
      if st.currentCls.isSome then "method" else "function",
      s, e, doc, [], [], [], decos.map getFullName, getAnnot ret,
      getParameters params⟩
    let st1 := registerFn st fname fi
    let st2 := { st1 with currentFn := some (st.currentCls, fname) }
    let st3 := visitParams st2 params
    let st4 := visitList st3 body
    let st5 := visitList st4 decos
    let st6 :=
      match ret with
      | some r => visit st5 r
      | none => st5
    { st6 with currentFn := none }
  | .call f args =>
    let cname := getFullName f
    let st1 :=
      match st.currentFn with
      | some _ => modifyCurrentFn st (fun fi => { fi with calls := fi.calls ++ [cname] })
      | none => st
    visitList (visit st1 f) args
  | .nameN id ctx =>
    (match st.currentFn, ctx with
     | some _, .load =>
       modifyCurrentFn st
         (fun fi => if id ∈ fi.used then fi else { fi with used := fi.used ++ [id] })
     | some _, .store =>
       modifyCurrentFn st
         (fun fi =>
           if id ∈ fi.assigned then fi else { fi with assigned := fi.assigned ++ [id] })
     | _, _ => st)
  | .attrN v _ => visit st v
  | .subscriptN v sl => visit (visit st v) sl
  | .importN names => { st with imports := st.imports ++ names }
  | .importFrom m names =>
    if m = "" then { st with imports := st.imports ++ names }
    else { st with imports := st.imports ++ names.map (fun n => m ++ "." ++ n) }
  | .plain children => visitList st children

def visitList (st : VState) : List Node → VState
  | [] => st
  | n :: rest => visitList (visit st n) rest

def visitParams (st : VState) : List (String × Option Node) → VState
  | [] => st
  | (_, some a) :: rest => visitParams (visit st a) rest
  | (_, none) :: rest => visitParams st rest

end

/-- `DependencyVisitor.analyze_source_code` on the body of the parsed
module (the `Module` node has no handler, so its children are walked with
the fresh state of `__init__`). -/
def analyze_source_code (body : List Node) : VState :=
  visitList ⟨[], [], [], none, none⟩ body

/-- `str()` of a resolved absolute POSIX path given by its components. -/
def showAbs (p : List String) : String :=
  "/" ++ String.intercalate "/" p

/-- `DependencyAnalyzer._analyze_single_file`: reading and parsing are the
external collaborator, passed in as `parsed`.  A parse failure yields the
degraded record with the stringified absolute file path; success runs the
visitor, classifies its raw imports, builds the nested dependency
structure, and stores the `'./'`-prefixed project-relative path. -/
def analyze_single_file (fs : FS) (projectPath filePath : List String)
    (parsed : Except String (List Node)) : Rec :=
  match parsed with
  | .error e => Rec.err (showAbs filePath) e
  | .ok body =>
    let vst := analyze_source_code body
    let cls := classify_imports fs vst.imports
    Rec.ok (joinRel (filePath.drop projectPath.length))
      (build_inner_deps_structure cls.1) cls.2 vst.classes vst.functions

/-- `dist < best_distance`, with `none` as the initial `float('inf')`. -/
def betterDist (dist : Nat) : Option (String × Nat) → Bool
  | none => true
  | some (_, d) => decide (dist < d)

/-- The inner method loop of `find_nearest_entity` for one class that
contains the target line: a containing method is a distance-0 match; a
non-containing method records the class itself at the min distance of the
line to the class bounds. -/
def methodScanStep (clsName : String) (cs ce : Int) (line : Int)
    (st : Option (String × Nat)) (m : String × FnInfo) : Option (String × Nat) :=
  if m.2.start_line ≤ line ∧ line ≤ m.2.end_line then
    if betterDist 0 st then some ("Method " ++ m.1 ++ " of class " ++ clsName, 0)
    else st
  else
    let dist := min (line - cs).natAbs (line - ce).natAbs
    if betterDist dist st then some ("Inside class " ++ clsName, dist) else st

/-- The class loop body of `find_nearest_entity`: a class whose line range
does not contain the target line is skipped entirely. -/
def scanClass (line : Int) (st : Option (String × Nat)) (c : String × ClsInfo) :
    Option (String × Nat) :=
  if c.2.start_line ≤ line ∧ line ≤ c.2.end_line then
    c.2.methods.foldl (methodScanStep c.1 c.2.start_line c.2.end_line line) st
  else st

/-- The top-level function loop body of `find_nearest_entity`. -/
def funScanStep (line : Int) (st : Option (String × Nat)) (f : String × FnInfo) :
    Option (String × Nat) :=
  if f.2.start_line ≤ line ∧ line ≤ f.2.end_line then
    if betterDist 0 st then some ("Function " ++ f.1, 0) else st
  else
    let dist := min (line - f.2.start_line).natAbs (line - f.2.end_line).natAbs
    if betterDist dist st then some ("Near function " ++ f.1, dist) else st

/-- `make_file_summaries.find_nearest_entity`: scan the classes; only when
no class produced a match (`best_match is None`) scan the top-level
functions; fall back to the fixed "none found" text. -/
def find_nearest_entity (info : Rec) (line : Int) : String :=
  let stC := (recClasses info).foldl (scanClass line) none
  let stF :=
    match stC with
    | none => (recFunctions info).foldl (funScanStep line) none
    | some b => some b
  match stF with
  | some (m, _) => m
  | none => "No nearby entity found"

/-- `modules_info[file_path] = …`: dictionary keys stay unique and keep
their first-insertion position. -/
def updateNodes (nodes : List String) (p : String) : List String :=
  if p ∈ nodes then nodes else nodes ++ [p]

/-- `adjacency_list[file_path].append(dep_path)` over a whole list: extend
the existing key in place, or create it at the end. -/
def addTargets : List (String × List String) → String → List String →
    List (String × List String)
  | [], src, ts => [(src, ts)]
  | (k, l) :: rest, src, ts =>
    if k = src then (k, l ++ ts) :: rest else (k, l) :: addTargets rest src ts

/-- The edge comprehension of `build_project_structure`:
`[{from: src, to: dst} for src, targets in adjacency_list.items() for dst in targets]`. -/
def flattenAdj (adj : List (String × List String)) : List (String × String) :=
  adj.flatMap (fun a => a.2.map (fun t => (a.1, t)))

/-- The `modules_info` keys of `build_project_structure` (the graph
nodes); a record whose `path` is falsy is skipped. -/
def buildNodes (records : List Rec) : List String :=
  records.foldl
    (fun ns r => if recPath r = "" then ns else updateNodes ns (recPath r)) []

/-- The adjacency accumulation of `build_project_structure`; the source's
single loop over records updates `modules_info` and `adjacency_list`
independently, split here into the two folds `buildNodes`/`buildAdj`.  An
empty flattened list never touches the `defaultdict`. -/
def buildAdjStep (adj : List (String × List String)) (r : Rec) :
    List (String × List String) :=
  if recPath r = "" then adj
  else
    let ts := extract_internal_module_paths (recInnerDeps r)
    if ts.isEmpty then adj else addTargets adj (recPath r) ts

def buildAdj (records : List Rec) : List (String × List String) :=
  records.foldl buildAdjStep []

/-- `build_project_structure`, reduced to its graph output: the node list
and the edge list. -/
def build_project_structure (records : List Rec) :
    List String × List (String × String) :=
  (buildNodes records, flattenAdj (buildAdj records))

/-- The shape of any state the top-level function scan can produce. -/
def FnMatchShape (st : Option (String × Nat)) : Prop :=
  ∃ n d, st = some ("Function " ++ n, d) ∨ st = some ("Near function " ++ n, d)

/-- Extensional equality of two project layouts: the same paths exist as
files and as directories. -/
def FSEquiv (fs1 fs2 : FS) : Prop :=
  ∀ p : List String, (p ∈ fs1.files ↔ p ∈ fs2.files) ∧ (p ∈ fs1.dirs ↔ p ∈ fs2.dirs)

/-- Concrete project for the parse-failure claim: one file whose analysis
always fails with a syntax error. -/
def errProj : Proj :=
  ⟨["x.py"], fun _ => Rec.err "/p/x.py" "boom"⟩

/-- A class spanning lines 10-40 with no methods at all. -/
def noMethodsRec : Rec :=
  .ok "./x.py" emptyDNode [] [("C", ⟨"C", "class", 10, 40, none, [], []⟩)] []

/-- A method record spanning lines 50-60, far from line 20. -/
def mFar : FnInfo := ⟨"m", "method", 50, 60, none, [], [], [], [], none, []⟩

/-- A class spanning lines 10-40 whose only method spans lines 50-60. -/
def clsWithFarMethod : ClsInfo :=
  ⟨"C", "class", 10, 40, none, [("m", mFar)], []⟩

/-- A method record spanning lines 15-20. -/
def mNear : FnInfo := ⟨"m", "method", 15, 20, none, [], [], [], [], none, []⟩

/-- A file with one class spanning lines 10-40 (method at 15-20) and no
top-level functions, for queries outside the class range. -/
def farClassRec : Rec :=
  .ok "./x.py" emptyDNode [] [("C", ⟨"C", "class", 10, 40, none, [("m", mNear)], []⟩)] []

/-- A top-level function spanning lines 5-8. -/
def fooFn : FnInfo := ⟨"foo", "function", 5, 8, none, [], [], [], [], none, []⟩

/-- A file with no classes and one top-level function. -/
def oneFunRec : Rec := .ok "./x.py" emptyDNode [] [] [("foo", fooFn)]

/-- `def g(): pass` nested on lines 2-3. -/
def gDef : Node := .funcDef "g" 2 3 none [] [] none []

/-- `def f(): def g(): pass; h()` — a call after the nested definition. -/
def fDef : Node :=
  .funcDef "f" 1 10 none [] [] none [gDef, .call (.nameN "h" Ctx.load) []]

/-- Module body holding only `f`. -/
def exTree : List Node := [fDef]

/-- `def m(self): def g(): pass` as the body of class `C`. -/
def mDef : Node :=
  .funcDef "m" 2 10 none [] [] none [.funcDef "g" 3 4 none [] [] none []]

/-- `class C:` with the method `m` above. -/
def cDef : Node := .classDef "C" 1 20 none [] [] [mDef]

/-- Module body holding only class `C`. -/
def exClassTree : List Node := [cDef]

/-- A visitor state currently inside class `C`. -/
def vstC4 : VState :=
  ⟨[("C", ⟨"C", "class", 1, 20, none, [], []⟩)], [], [], some "C", none⟩

/-- A function record used as registration payload in the witness. -/
def dummyFn : FnInfo := ⟨"g", "method", 3, 4, none, [], [], [], [], none, []⟩

/-- Two representations of the same layout, in different list orders. -/
def fsA : FS := ⟨[["a.py"], ["b.py"]], []⟩

/-- The same layout as `fsA` with the file list permuted. -/
def fsB : FS := ⟨[["b.py"], ["a.py"]], []⟩

theorem resolveAux_skip (fs : FS) (parts : List String) (i : Nat)
    (m : Nat) (him : i ≤ m)
    (hmax : ∀ j, i < j → j ≤ m → find_module_file fs (parts.take j) = none) :
    resolveAux fs parts m = resolveAux fs parts i := by
  induction m with
  | zero =>
    have : i = 0 := Nat.le_zero.mp him
    simp [this]
  | succ m ih =>
    rcases Nat.lt_or_ge i (m + 1) with hlt | hge
    · have hfind := hmax (m + 1) hlt (Nat.le_refl _)
      have hrec : resolveAux fs parts (m + 1) = resolveAux fs parts m := by
        simp [resolveAux, hfind]
      rw [hrec]
      exact ih (Nat.lt_succ_iff.mp hlt)
        (fun j h1 h2 => hmax j h1 (Nat.le_succ_of_le h2))
    · have : i = m + 1 := Nat.le_antisymm him hge
      simp [this]

theorem resolveAux_none (fs : FS) (parts : List String) (m : Nat)
    (hall : ∀ j, 1 ≤ j → j ≤ m → find_module_file fs (parts.take j) = none) :
    resolveAux fs parts m = none := by
  induction m with
  | zero => simp [resolveAux]
  | succ m ih =>
    have hfind := hall (m + 1) (Nat.succ_le_succ (Nat.zero_le _)) (Nat.le_refl _)
    have : resolveAux fs parts (m + 1) = resolveAux fs parts m := by
      simp [resolveAux, hfind]
    rw [this]
    exact ih (fun j h1 h2 => hall j h1 (Nat.le_succ_of_le h2))

/-- **C1.** The import resolver tries dotted prefixes longest-first and stops
at the first (largest) prefix length `i` whose leading components resolve to
a project file; the untouched trailing parts become the sub-reference list.
When no prefix down to length 1 resolves, the import is classified external
and kept verbatim.  In particular `a.b.C` over a layout holding the file
`a/b.py` resolves to that file with sub-references `["C"]`. -/
theorem C1_longest_first_resolution (fs : FS) (name : String) :
    (∀ i f, 1 ≤ i → i ≤ (splitDots name).length →
      find_module_file fs ((splitDots name).take i) = some f →
      (∀ j, i < j → j ≤ (splitDots name).length →
        find_module_file fs ((splitDots name).take j) = none) →
      resolve_import fs name =
        some (((splitDots name).take i).getLastD "", f, (splitDots name).drop i))
    ∧ ((∀ j, 1 ≤ j → j ≤ (splitDots name).length →
        find_module_file fs ((splitDots name).take j) = none) →
      resolve_import fs name = none ∧ classify_imports fs [name] = ([], [name]))
    ∧ resolve_import exampleFS "a.b.C" = some ("b", ["a", "b.py"], ["C"]) := by
  refine ⟨?_, ?_, ?_⟩
  · intro i f h1 h2 hfind hmax
    unfold resolve_import
    rw [resolveAux_skip fs _ i _ h2 hmax]
    obtain ⟨k, rfl⟩ : ∃ k, i = k + 1 := ⟨i - 1, by omega⟩
    simp [resolveAux, hfind]
  · intro hall
    have hnone : resolve_import fs name = none := by
      unfold resolve_import
      exact resolveAux_none fs _ _ hall
    exact ⟨hnone, by simp [classify_imports, hnone]⟩
  · decide

/-- Concrete instantiation of `C1_longest_first_resolution`: the resolving
prefix of `a.b.C` has length 2, and `numpy` is kept verbatim as external. -/
theorem C1_longest_first_resolution_witness :
    resolve_import exampleFS "a.b.C" = some ("b", ["a", "b.py"], ["C"])
    ∧ classify_imports exampleFS ["numpy"] = ([], ["numpy"]) := by
  constructor
  · exact (C1_longest_first_resolution exampleFS "a.b.C").1 2 ["a", "b.py"]
      (by decide) (by decide) (by decide)
      (by
        intro j h1 h2
        have : j = 3 := by
          have : (splitDots "a.b.C").length = 3 := by decide
          omega
        subst this
        decide)
  · exact ((C1_longest_first_resolution exampleFS "numpy").2.1
      (by
        intro j h1 h2
        have : j = 1 := by
          have : (splitDots "numpy").length = 1 := by decide
          omega
        subst this
        decide)).2

theorem filter_notmem_le (fl v v' : List String) (h : ∀ x, x ∈ v → x ∈ v') :
    (fl.filter (fun x => !decide (x ∈ v'))).length ≤
      (fl.filter (fun x => !decide (x ∈ v))).length := by
  induction fl with
  | nil => simp
  | cons a t ih =>
    by_cases hv' : a ∈ v'
    · by_cases hv : a ∈ v
      · simp only [List.filter_cons, hv, hv', decide_True, Bool.not_true,
          if_false, Bool.false_eq_true]
        exact ih
      · simp only [List.filter_cons, hv, hv', decide_True, decide_False,
          Bool.not_true, Bool.not_false, if_true, if_false, Bool.false_eq_true,
          List.length_cons]
        omega
    · have hvv : a ∉ v := fun hx => hv' (h a hx)
      simp only [List.filter_cons, hv', hvv, decide_False, Bool.not_false,
        if_true, List.length_cons]
      omega

theorem filter_cons_lt (fl v : List String) (file : String)
    (hmem : file ∈ fl) (hnv : file ∉ v) :
    (fl.filter (fun x => !decide (x ∈ file :: v))).length <
      (fl.filter (fun x => !decide (x ∈ v))).length := by
  induction fl with
  | nil => cases hmem
  | cons a t ih =>
    by_cases ha : a = file
    · subst ha
      have hle := filter_notmem_le t v (a :: v) (fun x hx => List.mem_cons_of_mem _ hx)
      have h1 : a ∈ a :: v := List.mem_cons_self a v
      simp only [List.filter_cons, h1, hnv, decide_True, decide_False,
        Bool.not_true, Bool.not_false, if_true, if_false, Bool.false_eq_true,
        List.length_cons]
      omega
    · have hft : file ∈ t := by
        rcases List.mem_cons.mp hmem with h | h
        · exact absurd h.symm ha
        · exact h
      by_cases hav : a ∈ v
      · have h1 : a ∈ file :: v := List.mem_cons_of_mem _ hav
        simp only [List.filter_cons, h1, hav, decide_True, Bool.not_true,
          if_false, Bool.false_eq_true]
        exact ih hft
      · have h1 : a ∉ file :: v := by
          simp only [List.mem_cons]
          rintro (hh | hh)
          · exact ha hh
          · exact hav hh
        simp only [List.filter_cons, h1, hav, decide_False, Bool.not_false,
          if_true, List.length_cons]
        have := ih hft
        omega

theorem unvis_mono (proj : Proj) (st st' : AnalyzerSt)
    (h : ∀ x, x ∈ st.visited → x ∈ st'.visited) :
    unvis proj st' ≤ unvis proj st :=
  filter_notmem_le proj.files st.visited st'.visited h

theorem traversalGood (proj : Proj) (maxD : Option Nat) : ∀ fuel : Nat,
    (∀ file depth st, file ∈ proj.files → unvis proj st < fuel →
      ∃ st', recAnalyzeFile proj maxD fuel file depth st = some st' ∧
        (∀ x, x ∈ st.visited → x ∈ st'.visited) ∧
        (AnalyzerInv st → AnalyzerInv st'))
    ∧ (∀ l depth st, (∀ x ∈ l, x ∈ proj.files) → unvis proj st < fuel →
      ∃ st', recAnalyzeDeps proj maxD fuel l depth st = some st' ∧
        (∀ x, x ∈ st.visited → x ∈ st'.visited) ∧
        (AnalyzerInv st → AnalyzerInv st')) := by
  intro fuel
  induction fuel with
  | zero =>
    constructor
    · intro file depth st _ hlt
      exact absurd hlt (Nat.not_lt_zero _)
    · intro l depth st _ hlt
      exact absurd hlt (Nat.not_lt_zero _)
  | succ fuel ih =>
    have hFile : ∀ file depth st, file ∈ proj.files → unvis proj st < fuel + 1 →
        ∃ st', recAnalyzeFile proj maxD (fuel + 1) file depth st = some st' ∧
          (∀ x, x ∈ st.visited → x ∈ st'.visited) ∧
          (AnalyzerInv st → AnalyzerInv st') := by
      intro file depth st hmem hlt
      by_cases hd : depthCheck maxD depth
      · exact ⟨st, by simp [recAnalyzeFile, hd], fun x hx => hx, fun hh => hh⟩
      · by_cases hv : file ∈ st.visited
        · exact ⟨st, by simp [recAnalyzeFile, hd, hv], fun x hx => hx, fun hh => hh⟩
        · have hdec : unvis proj
              (⟨file :: st.visited,
                st.records ++ [(file, proj.analyze file)]⟩ : AnalyzerSt) <
              unvis proj st :=
            filter_cons_lt proj.files st.visited file hmem hv
          have hlt1 : unvis proj
              (⟨file :: st.visited,
                st.records ++ [(file, proj.analyze file)]⟩ : AnalyzerSt) < fuel := by
            omega
          obtain ⟨st', heq, hsub, hinv⟩ := ih.2
            ((collectDeps (recInnerDeps (proj.analyze file))).filter
              (fun p => p ∈ proj.files))
            (depth + 1)
            ⟨file :: st.visited, st.records ++ [(file, proj.analyze file)]⟩
            (fun x hx => by
              have := List.mem_filter.mp hx
              exact of_decide_eq_true this.2)
            hlt1
          refine ⟨st', ?_, ?_, ?_⟩
          · simpa [recAnalyzeFile, hd, hv] using heq
          · intro x hx
            exact hsub x (List.mem_cons_of_mem _ hx)
          · intro hInv
            apply hinv
            constructor
            · exact List.nodup_cons.mpr ⟨hv, hInv.1⟩
            · show file :: st.visited =
                ((st.records ++ [(file, proj.analyze file)]).map Prod.fst).reverse
              rw [List.map_append, List.reverse_append]
              simp [hInv.2]
    have hDeps : ∀ l depth st, (∀ x ∈ l, x ∈ proj.files) → unvis proj st < fuel + 1 →
        ∃ st', recAnalyzeDeps proj maxD (fuel + 1) l depth st = some st' ∧
          (∀ x, x ∈ st.visited → x ∈ st'.visited) ∧
          (AnalyzerInv st → AnalyzerInv st') := by
      intro l
      induction l with
      | nil =>
        intro depth st _ hlt
        exact ⟨st, by simp [recAnalyzeDeps], fun x hx => hx, fun hh => hh⟩
      | cons f rest ihl =>
        intro depth st hall hlt
        obtain ⟨st2, heq2, hsub2, hinv2⟩ := hFile f depth st (hall f (by simp)) hlt
        have hlt2 : unvis proj st2 < fuel + 1 :=
          lt_of_le_of_lt (unvis_mono proj st st2 hsub2) hlt
        obtain ⟨st', heq', hsub', hinv'⟩ :=
          ihl depth st2 (fun x hx => hall x (by simp [hx])) hlt2
        refine ⟨st', ?_, fun x hx => hsub' x (hsub2 x hx), fun hh => hinv' (hinv2 hh)⟩
        simpa [recAnalyzeDeps, heq2] using heq'
    exact ⟨hFile, hDeps⟩

/-- **C2.** On every project — cyclic imports included — the recursive
traversal from the entry file terminates with a final state in which the
visited set holds no duplicates and is exactly the reversed list of emitted
record paths: every reached file is analyzed at most once and receives
exactly one persisted record. -/
theorem C2_traversal_terminates_once (proj : Proj) (maxD : Option Nat) (entry : String) :
    ∃ st, analyze_from_entry proj maxD entry = some st ∧
      st.visited.Nodup ∧
      st.visited = (st.records.map Prod.fst).reverse ∧
      (st.records.map Prod.fst).Nodup := by
  unfold analyze_from_entry
  by_cases he : entry ∈ proj.files
  · have hlt : unvis proj (⟨[], []⟩ : AnalyzerSt) < proj.files.length + 1 := by
      have : unvis proj ⟨[], []⟩ ≤ proj.files.length := by
        simp [unvis]
      omega
    obtain ⟨st, heq, _, hinv⟩ :=
      (traversalGood proj maxD (proj.files.length + 1)).1 entry 0 ⟨[], []⟩ he hlt
    have hInv : AnalyzerInv st := hinv ⟨List.nodup_nil, by simp⟩
    refine ⟨st, by simp [he, heq], hInv.1, hInv.2, ?_⟩
    have := hInv.1
    rw [hInv.2] at this
    exact List.nodup_reverse.mp this
  · exact ⟨⟨[], []⟩, by simp [he], by simp, by simp, by simp⟩

/-- **C7.** A file whose analysis produced a parse-failure record is a dead
end: the record carries only `path` and `error` (classes, functions,
external and internal dependencies all read back empty), the traversal
emits exactly that one record and recurses into nothing from it, and the
step still succeeds (the failure is not fatal).  A parse failure in
`_analyze_single_file` itself always yields exactly such a record. -/
theorem C7_parse_failure_dead_end (proj : Proj) (maxD : Option Nat) (fuel : Nat)
    (file : String) (depth : Nat) (st : AnalyzerSt) (p m : String)
    (hd : depthCheck maxD depth = false)
    (hv : file ∉ st.visited)
    (he : proj.analyze file = Rec.err p m) :
    recAnalyzeFile proj maxD (fuel + 1) file depth st =
      some ⟨file :: st.visited, st.records ++ [(file, Rec.err p m)]⟩
    ∧ recClasses (Rec.err p m) = [] ∧ recFunctions (Rec.err p m) = []
    ∧ recExternal (Rec.err p m) = []
    ∧ collectDeps (recInnerDeps (Rec.err p m)) = []
    ∧ (∀ fs pp fp e, analyze_single_file fs pp fp (Except.error e) =
        Rec.err (showAbs fp) e) := by
  refine ⟨?_, rfl, rfl, rfl, ?_, fun fs pp fp e => rfl⟩
  · simp [recAnalyzeFile, hd, hv, he, recInnerDeps, collectDeps,
      collectDepsChildren, emptyDNode, recAnalyzeDeps]
  · simp [recInnerDeps, emptyDNode, collectDeps, collectDepsChildren]

/-- Concrete instantiation of `C7_parse_failure_dead_end` on a file whose
analysis fails. -/
theorem C7_parse_failure_dead_end_witness :
    recAnalyzeFile errProj none 4 "x.py" 0 ⟨[], []⟩ =
      some ⟨["x.py"], [("x.py", Rec.err "/p/x.py" "boom")]⟩
    ∧ recClasses (Rec.err "/p/x.py" "boom") = [] := by
  have h := C7_parse_failure_dead_end errProj none 3 "x.py" 0 ⟨[], []⟩
    "/p/x.py" "boom" rfl (by simp) rfl
  exact ⟨h.1, h.2.1⟩

theorem foldl_methodScan_miss (cname : String) (cs ce : Int) (line : Int)
    (ms : List (String × FnInfo)) (st : Option (String × Nat))
    (hmiss : ∀ m ∈ ms, ¬(m.2.start_line ≤ line ∧ line ≤ m.2.end_line)) :
    ms.foldl (methodScanStep cname cs ce line) st =
      if ms = [] then st
      else if betterDist (min (line - cs).natAbs (line - ce).natAbs) st then
        some ("Inside class " ++ cname, min (line - cs).natAbs (line - ce).natAbs)
      else st := by
  induction ms generalizing st with
  | nil => simp
  | cons m rest ih =>
    have hm := hmiss m (by simp)
    have hstep : methodScanStep cname cs ce line st m =
        if betterDist (min (line - cs).natAbs (line - ce).natAbs) st then
          some ("Inside class " ++ cname, min (line - cs).natAbs (line - ce).natAbs)
        else st := by
      simp [methodScanStep, hm]
    rw [List.foldl_cons, hstep, ih _ (fun x hx => hmiss x (by simp [hx]))]
    by_cases hrest : rest = []
    · simp [hrest]
    · simp only [hrest, if_false]
      by_cases hb : betterDist (min (line - cs).natAbs (line - ce).natAbs) st
      · simp only [hb, if_true]
        have : betterDist (min (line - cs).natAbs (line - ce).natAbs)
            (some ("Inside class " ++ cname,
              min (line - cs).natAbs (line - ce).natAbs)) = false := by
          simp [betterDist]
        simp [this]
      · simp only [hb, if_false]
        simp [hb]

/-- **C3 (amended).** For a class whose line range contains the queried line
and none of whose methods contains it, the locator records the candidate
`"Inside class C"` at distance `min(|line-start|, |line-end|)` once per
method that fails the containment test — hence only when the class declares
at least one method.  A containing class with no methods records no
candidate at all. -/
theorem C3_inside_class_needs_method (cname : String) (ci : ClsInfo) (line : Int)
    (st : Option (String × Nat))
    (hin : ci.start_line ≤ line ∧ line ≤ ci.end_line)
    (hmiss : ∀ m ∈ ci.methods, ¬(m.2.start_line ≤ line ∧ line ≤ m.2.end_line)) :
    scanClass line st (cname, ci) =
      if ci.methods = [] then st
      else if betterDist (min (line - ci.start_line).natAbs (line - ci.end_line).natAbs) st then
        some ("Inside class " ++ cname,
          min (line - ci.start_line).natAbs (line - ci.end_line).natAbs)
      else st := by
  have h := foldl_methodScan_miss cname ci.start_line ci.end_line line ci.methods st hmiss
  simp only [scanClass, hin, and_self, if_true]
  exact h

/-- For a class spanning lines 10-40 with no methods, a query at line 20
(inside the class) yields no candidate at all: the result is the fallback
text, not `"Inside class C"` as the claim requires. -/
theorem C3_counterexample :
    find_nearest_entity noMethodsRec 20 = "No nearby entity found"
    ∧ find_nearest_entity noMethodsRec 20 ≠ "Inside class C" := by
  constructor
  · decide
  · decide

/-- Concrete instantiation of `C3_inside_class_needs_method`: one method at
lines 50-60 makes the class containing line 20 record `"Inside class C"` at
distance 10. -/
theorem C3_inside_class_needs_method_witness :
    scanClass 20 none ("C", clsWithFarMethod) = some ("Inside class C", 10) := by
  have h := C3_inside_class_needs_method "C" clsWithFarMethod 20 none
    (by decide) (by decide)
  rw [h]
  decide

theorem foldl_scanClass_skip (line : Int) (cs : List (String × ClsInfo))
    (st : Option (String × Nat))
    (h : ∀ c ∈ cs, ¬(c.2.start_line ≤ line ∧ line ≤ c.2.end_line)) :
    cs.foldl (scanClass line) st = st := by
  induction cs generalizing st with
  | nil => rfl
  | cons c rest ih =>
    have hc := h c (by simp)
    rw [List.foldl_cons, show scanClass line st c = st by simp [scanClass, hc]]
    exact ih _ (fun x hx => h x (by simp [hx]))

/-- **C6 (amended).** A class whose line range does not contain the queried
line contributes no candidate at all: when no class contains the line the
class scan leaves the running best empty, and the result is determined
entirely by the top-level function scan (falling back to the fixed text
when that also produces nothing). -/
theorem C6_outside_class_no_candidate (info : Rec) (line : Int)
    (h : ∀ c ∈ recClasses info, ¬(c.2.start_line ≤ line ∧ line ≤ c.2.end_line)) :
    find_nearest_entity info line =
      (match (recFunctions info).foldl (funScanStep line) none with
       | some b => b.1
       | none => "No nearby entity found") := by
  unfold find_nearest_entity
  rw [foldl_scanClass_skip line _ none h]
  rcases hfold : (recFunctions info).foldl (funScanStep line) none with _ | ⟨m, d⟩ <;>
    simp [hfold]

/-- For a class spanning lines 10-40 (method at 15-20) and no functions, a
query at line 45 — outside the class but near it — returns the fallback
text, not `"Inside class C"` with nonzero distance as the claim requires. -/
theorem C6_counterexample :
    find_nearest_entity farClassRec 45 = "No nearby entity found"
    ∧ find_nearest_entity farClassRec 45 ≠ "Inside class C" := by
  constructor
  · decide
  · decide

/-- Concrete instantiation of `C6_outside_class_no_candidate` at line 45 of
the 10-40 class: with no function claiming the line the locator reports
nothing. -/
theorem C6_outside_class_no_candidate_witness :
    find_nearest_entity farClassRec 45 = "No nearby entity found" := by
  have h := C6_outside_class_no_candidate farClassRec 45 (by decide)
  rw [h]
  decide

theorem funScanStep_none_shape (line : Int) (f : String × FnInfo) :
    FnMatchShape (funScanStep line none f) := by
  unfold funScanStep
  by_cases h : f.2.start_line ≤ line ∧ line ≤ f.2.end_line
  · simp only [h, and_self, if_true, betterDist]
    exact ⟨f.1, 0, Or.inl rfl⟩
  · simp only [h, if_false, betterDist]
    exact ⟨f.1, _, Or.inr rfl⟩

theorem funScanStep_keeps_shape (line : Int) (st : Option (String × Nat))
    (f : String × FnInfo) (h : FnMatchShape st) :
    FnMatchShape (funScanStep line st f) := by
  unfold funScanStep
  by_cases h1 : f.2.start_line ≤ line ∧ line ≤ f.2.end_line
  · by_cases hb : betterDist 0 st
    · simp only [h1, and_self, if_true, hb]
      exact ⟨f.1, 0, Or.inl rfl⟩
    · simp only [h1, and_self, if_true, hb, if_false, Bool.false_eq_true]
      exact h
  · by_cases hb : betterDist
        (min (line - f.2.start_line).natAbs (line - f.2.end_line).natAbs) st
    · simp only [h1, if_false, hb, if_true]
      exact ⟨f.1, _, Or.inr rfl⟩
    · simp only [h1, if_false, hb, Bool.false_eq_true]
      exact h

theorem foldl_funScan_shape (line : Int) (fl : List (String × FnInfo))
    (st : Option (String × Nat)) (h : FnMatchShape st) :
    FnMatchShape (fl.foldl (funScanStep line) st) := by
  induction fl generalizing st with
  | nil => exact h
  | cons f rest ih =>
    rw [List.foldl_cons]
    exact ih _ (funScanStep_keeps_shape line st f h)

theorem funStr_ne (n : String) : ("Function " ++ n) ≠ "No nearby entity found" := by
  intro h
  have hd : ("Function ".data ++ n.data) = "No nearby entity found".data := by
    have h2 : ("Function " ++ n).data = "Function ".data ++ n.data := rfl
    rw [← h2, h]
  simp at hd

theorem nearFunStr_ne (n : String) :
    ("Near function " ++ n) ≠ "No nearby entity found" := by
  intro h
  have hd : ("Near function ".data ++ n.data) = "No nearby entity found".data := by
    have h2 : ("Near function " ++ n).data = "Near function ".data ++ n.data := rfl
    rw [← h2, h]
  simp at hd

/-- **C10.** When a record declares at least one top-level function and no
class range contains the queried line, the locator always produces a
match: every function contributes a candidate — containment or unbounded
nearest-distance — so the fallback text is never returned. -/
theorem C10_function_fallback_total (info : Rec) (line : Int)
    (hfn : recFunctions info ≠ [])
    (hcls : ∀ c ∈ recClasses info, ¬(c.2.start_line ≤ line ∧ line ≤ c.2.end_line)) :
    find_nearest_entity info line ≠ "No nearby entity found" := by
  unfold find_nearest_entity
  rw [foldl_scanClass_skip line _ none hcls]
  obtain ⟨f, rest, hrec⟩ : ∃ f rest, recFunctions info = f :: rest := by
    rcases hh : recFunctions info with _ | ⟨f, rest⟩
    · exact absurd hh hfn
    · exact ⟨f, rest, rfl⟩
  rw [hrec]
  have hshape : FnMatchShape ((f :: rest).foldl (funScanStep line) none) := by
    rw [List.foldl_cons]
    exact foldl_funScan_shape line rest _ (funScanStep_none_shape line f)
  rcases hshape with ⟨n, d, hs | hs⟩ <;> rw [hs] <;> simp
  · exact funStr_ne n
  · exact nearFunStr_ne n

/-- Concrete instantiation of `C10_function_fallback_total`: a file with one
function at lines 5-8 queried at line 100 still reports a match. -/
theorem C10_function_fallback_total_witness :
    find_nearest_entity oneFunRec 100 ≠ "No nearby entity found" :=
  C10_function_fallback_total oneFunRec 100 (by decide) (by decide)

/-- **C4 (amended).** The visitor context is set on entry and reset to
`None` on exit — not restored to the enclosing value: leaving any class
node clears the current class, and leaving any function node clears the
current function, whatever surrounded them.  A function definition is
registered by the current class alone: under a current class it becomes a
method of that class (even when it is nested inside one of that class's
methods), and with no current class it lands in the module-level function
mapping (even when nested inside another function). -/
theorem C4_context_cleared_not_restored :
    (∀ st cname s e doc bases decos body,
      (visit st (.classDef cname s e doc bases decos body)).currentCls = none)
    ∧ (∀ st fname s e doc decos params ret body,
      (visit st (.funcDef fname s e doc decos params ret body)).currentFn = none)
    ∧ (∀ st fname fi c, st.currentCls = some c →
      (registerFn st fname fi).functions = st.functions ∧
      (registerFn st fname fi).classes =
        modifyAssoc st.classes c
          (fun ci => { ci with methods := updateAssoc ci.methods fname fi }))
    ∧ (∀ st fname fi, st.currentCls = none →
      (registerFn st fname fi).functions = updateAssoc st.functions fname fi ∧
      (registerFn st fname fi).classes = st.classes) := by
  refine ⟨?_, ?_, ?_, ?_⟩
  · intro st cname s e doc bases decos body
    rfl
  · intro st fname s e doc decos params ret body
    cases ret <;> rfl
  · intro st fname fi c hc
    simp [registerFn, hc]
  · intro st fname fi hc
    simp [registerFn, hc]

/-- A call placed in `f` after the nested definition of `g` is attributed
to no function at all (not to `f`), and a function nested inside a method
of class `C` is registered as a method of `C`. -/
theorem C4_counterexample :
    ((analyze_source_code exTree).functions.lookup "f").map FnInfo.calls = some []
    ∧ ((analyze_source_code exTree).functions.lookup "f").map FnInfo.calls ≠ some ["h"]
    ∧ ((analyze_source_code exClassTree).classes.lookup "C").map
        (fun ci => (ci.methods.lookup "g").isSome) = some true := by
  refine ⟨by decide, by decide, by decide⟩

/-- Concrete instantiation of `C4_context_cleared_not_restored`: leaving a
class clears the class context, and a registration under current class `C`
leaves the module-level function mapping untouched. -/
theorem C4_context_cleared_not_restored_witness :
    (visit vstC4 (.classDef "D" 5 6 none [] [] [])).currentCls = none
    ∧ (registerFn vstC4 "g" dummyFn).functions = vstC4.functions :=
  ⟨C4_context_cleared_not_restored.1 vstC4 "D" 5 6 none [] [] [],
    (C4_context_cleared_not_restored.2.2.1 vstC4 "g" dummyFn "C" rfl).1⟩

/-- **C5 (amended).** A successfully analyzed file's record carries the
`'./'`-prefixed project-relative path, but a parse-failure record carries
the stringified absolute path of the analyzed file — it is not
project-relative. -/
theorem C5_record_path_convention (fs : FS) (pp rest : List String) (e : String)
    (body : List Node) :
    recPath (analyze_single_file fs pp (pp ++ rest) (Except.ok body)) =
      "./" ++ String.intercalate "/" rest
    ∧ recPath (analyze_single_file fs pp (pp ++ rest) (Except.error e)) =
      "/" ++ String.intercalate "/" (pp ++ rest) := by
  constructor
  · simp [analyze_single_file, recPath, joinRel]
  · rfl

/-- A parse failure of `/proj/main.py` in project `/proj` is recorded under
the absolute path, not under the relative `./main.py`. -/
theorem C5_counterexample :
    recPath (analyze_single_file exampleFS ["proj"] ["proj", "main.py"]
      (Except.error "invalid syntax")) = "/proj/main.py"
    ∧ "/proj/main.py" ≠ "./main.py" := by
  exact ⟨rfl, by decide⟩

theorem extract_nodup (n : DNode) : (extract_internal_module_paths n).Nodup := by
  rcases n with ⟨q, mods, children⟩
  rw [extract_internal_module_paths.eq_def]
  exact List.nodup_dedup _

mutual

theorem mem_extract_spec (p : String) : (n : DNode) →
    (p ∈ extract_internal_module_paths n ↔ p ∈ specAllPaths n)
  | .mk q mods children => by
    cases mods with
    | none =>
      simp [extract_internal_module_paths, specAllPaths, List.mem_dedup,
        mem_extractChildren_spec p children]
    | some l =>
      simp only [extract_internal_module_paths, specAllPaths, List.mem_dedup,
        List.mem_append, mem_extractChildren_spec p children]
      tauto

theorem mem_extractChildren_spec (p : String) : (cs : List (String × DNode)) →
    (p ∈ extractChildren cs ↔ p ∈ specAllPathsChildren cs)
  | [] => by simp [extractChildren, specAllPathsChildren]
  | (k, c) :: rest => by
    simp [extractChildren, specAllPathsChildren,
      mem_extract_spec p c, mem_extractChildren_spec p rest]

end

theorem count_map_pair (s t src : String) (ts : List String) :
    (ts.map (fun x => (src, x))).count (s, t) = if s = src then ts.count t else 0 := by
  induction ts with
  | nil => simp
  | cons a rest ih =>
    simp only [List.map_cons, List.count_cons, ih, Prod.mk.injEq]
    by_cases hs : s = src
    · subst hs
      by_cases hta : t = a
      · subst hta
        simp
      · simp [hta]
    · have h2 : ¬src = s := fun hh => hs hh.symm
      simp [hs, h2]

theorem count_flattenAdj_addTargets (adj : List (String × List String))
    (src s t : String) (ts : List String) :
    (flattenAdj (addTargets adj src ts)).count (s, t) =
      (flattenAdj adj).count (s, t) + (if s = src then ts.count t else 0) := by
  induction adj with
  | nil => simp [addTargets, flattenAdj, count_map_pair]
  | cons a rest ih =>
    obtain ⟨k, l⟩ := a
    by_cases hk : k = src
    · subst hk
      simp only [addTargets, if_true, flattenAdj, List.flatMap_cons,
        List.count_append, List.map_append, count_map_pair]
      by_cases hs : s = k
      · simp only [hs, if_true]
        omega
      · simp only [hs, if_false]
        omega
    · simp only [addTargets, hk, if_false, flattenAdj, List.flatMap_cons,
        List.count_append]
      have ihx := ih
      simp only [flattenAdj] at ihx
      omega

theorem count_buildAdjStep (adj : List (String × List String)) (r : Rec)
    (s t : String) :
    (flattenAdj (buildAdjStep adj r)).count (s, t) =
      (flattenAdj adj).count (s, t) +
        (if recPath r = s ∧ recPath r ≠ "" ∧
            t ∈ extract_internal_module_paths (recInnerDeps r) then 1 else 0) := by
  unfold buildAdjStep
  by_cases h1 : recPath r = ""
  · simp [h1]
  · by_cases h2 : (extract_internal_module_paths (recInnerDeps r)).isEmpty
    · have hts : extract_internal_module_paths (recInnerDeps r) = [] :=
        List.isEmpty_iff.mp h2
      simp [h1, h2, hts]
    · simp only [h1, if_false, h2, Bool.false_eq_true,
        count_flattenAdj_addTargets]
      have hnd : (extract_internal_module_paths (recInnerDeps r)).Nodup :=
        extract_nodup _
      by_cases hs : s = recPath r
      · subst hs
        by_cases hmem : t ∈ extract_internal_module_paths (recInnerDeps r)
        · rw [List.count_eq_one_of_mem hnd hmem]
          simp [h1, hmem]
        · rw [List.count_eq_zero_of_not_mem hmem]
          simp [hmem]
      · have : ¬(recPath r = s) := fun hh => hs hh.symm
        simp [hs, this]

theorem count_buildAdj_aux (s t : String) (recs : List Rec) :
    ∀ adj, (flattenAdj (recs.foldl buildAdjStep adj)).count (s, t) =
      (flattenAdj adj).count (s, t) +
        recs.countP (fun r => decide (recPath r = s ∧ recPath r ≠ "" ∧
          t ∈ extract_internal_module_paths (recInnerDeps r))) := by
  induction recs with
  | nil => simp
  | cons r rest ih =>
    intro adj
    rw [List.foldl_cons, ih, count_buildAdjStep, List.countP_cons]
    by_cases hp : recPath r = s ∧ recPath r ≠ "" ∧
        t ∈ extract_internal_module_paths (recInnerDeps r)
    · rw [if_pos hp, decide_eq_true hp]
      simp only [if_true]
      omega
    · rw [if_neg hp, decide_eq_false hp]
      simp only [Bool.false_eq_true, if_false]
      omega

/-- **C8.** The aggregator's flattening of one record's internal-dependency
tree collects exactly the nested `modules[].path` entries (conjunct two),
with duplicates inside the record collapsed (conjunct one), and the edge
list of the consolidated graph holds exactly one edge `(src, t)` per record
whose path is `src` and whose deduplicated flattened targets contain `t` —
so within a record the same target yields one edge, while several records
each contribute their own. -/
theorem C8_aggregator_edges (records : List Rec) (tree : DNode) (s t : String) :
    (extract_internal_module_paths tree).Nodup
    ∧ (∀ p, p ∈ extract_internal_module_paths tree ↔ p ∈ specAllPaths tree)
    ∧ (build_project_structure records).2.count (s, t) =
        (records.filter (fun r => decide (recPath r = s ∧ recPath r ≠ "" ∧
          t ∈ extract_internal_module_paths (recInnerDeps r)))).length := by
  refine ⟨extract_nodup tree, fun p => mem_extract_spec p tree, ?_⟩
  have h := count_buildAdj_aux s t records []
  rw [← List.countP_eq_length_filter]
  simpa [build_project_structure, buildAdj, flattenAdj] using h

theorem pathExists_congr {fs1 fs2 : FS} (h : FSEquiv fs1 fs2) (p : List String) :
    pathExists fs1 p = pathExists fs2 p := by
  unfold pathExists
  rw [decide_eq_decide.mpr (h p).1, decide_eq_decide.mpr (h p).2]

theorem isDir_congr {fs1 fs2 : FS} (h : FSEquiv fs1 fs2) (p : List String) :
    isDir fs1 p = isDir fs2 p := by
  unfold isDir
  rw [decide_eq_decide.mpr (h p).2]

theorem walkDirs_congr {fs1 fs2 : FS} (h : FSEquiv fs1 fs2) :
    ∀ (l base : List String), walkDirs fs1 base l = walkDirs fs2 base l := by
  intro l
  induction l with
  | nil => intro base; rfl
  | cons p rest ih =>
    intro base
    simp only [walkDirs]
    rw [pathExists_congr h, isDir_congr h]
    by_cases hc : (pathExists fs2 (base ++ [p]) && isDir fs2 (base ++ [p])) = true
    · rw [if_pos hc, if_pos hc]
      exact ih _
    · rw [if_neg hc, if_neg hc]

theorem findInBase_congr {fs1 fs2 : FS} (h : FSEquiv fs1 fs2)
    (base : List String) (last : String) :
    findInBase fs1 base last = findInBase fs2 base last := by
  simp only [findInBase, pathExists_congr h]

theorem find_module_file_congr {fs1 fs2 : FS} (h : FSEquiv fs1 fs2)
    (parts : List String) :
    find_module_file fs1 parts = find_module_file fs2 parts := by
  unfold find_module_file
  cases parts.getLast? with
  | none => rfl
  | some last =>
    rw [walkDirs_congr h]
    cases walkDirs fs2 [] parts.dropLast with
    | none => rfl
    | some base => exact findInBase_congr h base last

theorem resolveAux_congr {fs1 fs2 : FS} (h : FSEquiv fs1 fs2)
    (parts : List String) : ∀ n, resolveAux fs1 parts n = resolveAux fs2 parts n := by
  intro n
  induction n with
  | zero => rfl
  | succ i ih =>
    simp only [resolveAux]
    rw [find_module_file_congr h]
    cases find_module_file fs2 (parts.take (i + 1)) with
    | none => exact ih
    | some f => rfl

theorem resolve_import_congr {fs1 fs2 : FS} (h : FSEquiv fs1 fs2) (name : String) :
    resolve_import fs1 name = resolve_import fs2 name := by
  unfold resolve_import
  exact resolveAux_congr h _ _

theorem classify_foldl_congr {fs1 fs2 : FS} (h : FSEquiv fs1 fs2) (l : List String) :
    ∀ acc : List (String × List String × List String) × List String,
      l.foldl (fun acc imp =>
        match resolve_import fs1 imp with
        | some r => (acc.1 ++ [r], acc.2)
        | none => (acc.1, acc.2 ++ [imp])) acc =
      l.foldl (fun acc imp =>
        match resolve_import fs2 imp with
        | some r => (acc.1 ++ [r], acc.2)
        | none => (acc.1, acc.2 ++ [imp])) acc := by
  induction l with
  | nil => intro acc; rfl
  | cons imp rest ih =>
    intro acc
    simp only [List.foldl_cons]
    rw [resolve_import_congr h imp]
    cases resolve_import fs2 imp with
    | none => exact ih _
    | some r => exact ih _

theorem classify_imports_congr {fs1 fs2 : FS} (h : FSEquiv fs1 fs2)
    (imports : List String) :
    classify_imports fs1 imports = classify_imports fs2 imports := by
  unfold classify_imports
  exact classify_foldl_congr h imports ([], [])

/-- **C9.** Single-file analysis is deterministic: its record is a pure
function of the source tree and the extensional project layout.  Two runs
over the same parsed source and two layout representations that agree on
which paths exist as files and directories produce identical records —
every list field included — with no hidden time or randomness input. -/
theorem C9_analysis_deterministic (fs1 fs2 : FS) (pp fp : List String)
    (parsed : Except String (List Node)) (h : FSEquiv fs1 fs2) :
    analyze_single_file fs1 pp fp parsed = analyze_single_file fs2 pp fp parsed := by
  cases parsed with
  | error e => rfl
  | ok body =>
    simp only [analyze_single_file]
    rw [classify_imports_congr h]

/-- Concrete instantiation of `C9_analysis_deterministic`: permuting the
file list of the layout leaves the record unchanged. -/
theorem C9_analysis_deterministic_witness :
    analyze_single_file fsA ["p"] ["p", "m.py"]
      (Except.ok [Node.importN ["a", "numpy"]]) =
    analyze_single_file fsB ["p"] ["p", "m.py"]
      (Except.ok [Node.importN ["a", "numpy"]]) :=
  C9_analysis_deterministic fsA fsB ["p"] ["p", "m.py"]
    (Except.ok [Node.importN ["a", "numpy"]])
    (by
      intro p
      refine ⟨?_, Iff.rfl⟩
      constructor
      · intro hm
        simp only [fsA, List.mem_cons] at hm
        simp only [fsB, List.mem_cons]
        tauto
      · intro hm
        simp only [fsB, List.mem_cons] at hm
        simp only [fsA, List.mem_cons]
        tauto)
